import Mathlib

/-!
# Overlap error adjustment and tig positions

A shallow embedding of the record types of
`src/overlapErrorAdjustment/findErrors.H` and of `src/stores/tgTig.H`, with
their member functions, followed by the properties established about them.

Conventions of the embedding.

* A C++ unsigned integer of width `w` is a `Nat`; an operation whose result is
  an unsigned `w`-bit value reduces modulo `2 ^ w` explicitly.
* A bit-field `uint32 x : 16` is a `Nat` field; the range of the field is part of
  the well-formedness predicate `Vote_Tally_t.WF`.
* A `std::string` is a `List Char`; a position in it is a `Nat` and
  `std::string::npos` is the largest `size_t`, `2 ^ 64 - 1`.
* A function that can abort (a failed `assert`) returns `Option`; `none` is "no
  value is returned".  Assertions are taken to be enabled (no `NDEBUG`).
-/

namespace Canu

/-! ## Constants -/

/-- Highest number of votes before overflow (`#define MAX_VOTE 65535`). -/
def MAX_VOTE : Nat := 65535

/-- Highest degree before overflow (`#define MAX_DEGREE 32767`). -/
def MAX_DEGREE : Nat := 32767

/-- The constant `UINT32_MAX` of `<stdint.h>`. -/
def UINT32_MAX : Nat := 4294967295

/-- The constant `std::string::npos`, the largest value of `size_t`. -/
def npos : Nat := 2 ^ 64 - 1

/-! ## Vote_Tally_t -/

/-- The struct `Vote_Tally_t`: seven 16-bit bit-fields, a 32-bit insertion
count and the delimited string of insertions. -/
structure Vote_Tally_t where
  confirmed : Nat
  deletes : Nat
  a_subst : Nat
  c_subst : Nat
  g_subst : Nat
  t_subst : Nat
  no_insert : Nat
  insertion_cnt : Nat
  insertions : List Char
  deriving DecidableEq, Repr

namespace Vote_Tally_t

/-- The values the C++ type can hold: each bit-field fits 16 bits, the
insertion count fits 32 bits, and the string is shorter than `npos`. -/
def WF (v : Vote_Tally_t) : Prop :=
  v.confirmed < 2 ^ 16 ∧ v.deletes < 2 ^ 16 ∧ v.a_subst < 2 ^ 16 ∧
  v.c_subst < 2 ^ 16 ∧ v.g_subst < 2 ^ 16 ∧ v.t_subst < 2 ^ 16 ∧
  v.no_insert < 2 ^ 16 ∧ v.insertion_cnt < 2 ^ 32 ∧ v.insertions.length < npos

instance (v : Vote_Tally_t) : Decidable v.WF := by
  unfold WF; infer_instance

/-- The constructor `Vote_Tally_t()`: every counter zero, empty string. -/
def ctor : Vote_Tally_t :=
  { confirmed := 0, deletes := 0, a_subst := 0, c_subst := 0, g_subst := 0,
    t_subst := 0, no_insert := 0, insertion_cnt := 0, insertions := [] }

/-- The constant `INSERTIONS_DELIM`. -/
def INSERTIONS_DELIM : Char := '$'

/-- The member `total()`: the five bit-fields are promoted to `int`, added, and
the sum is converted to the `uint32` return type. -/
def total (v : Vote_Tally_t) : Nat :=
  (v.deletes + v.a_subst + v.c_subst + v.g_subst + v.t_subst) % 2 ^ 32

/-- The member `ins_total()`. -/
def ins_total (v : Vote_Tally_t) : Nat :=
  v.insertion_cnt

/-- The member `all()`: a `uint32` addition. -/
def all (v : Vote_Tally_t) : Nat :=
  (v.total + v.ins_total) % 2 ^ 32

/-- The member `subst(bp)`: the switch over the base; the default branch is
`assert(false)`, which aborts. -/
def subst (v : Vote_Tally_t) (bp : Char) : Option Nat :=
  if bp = 'a' then some v.a_subst
  else if bp = 'c' then some v.c_subst
  else if bp = 'g' then some v.g_subst
  else if bp = 't' then some v.t_subst
  else none

/-- The member `all_but(bp)`: `all() - subst(bp)`, a `uint32` subtraction; it
aborts when `subst(bp)` does. -/
def all_but (v : Vote_Tally_t) (bp : Char) : Option Nat :=
  match v.subst bp with
  | some s => some ((v.all + 2 ^ 32 - s) % 2 ^ 32)
  | none => none

/-- Two tallies that agree everywhere except, possibly, in the substitution
counter of base `bp`. -/
def agree_except_subst (bp : Char) (v w : Vote_Tally_t) : Prop :=
  v.confirmed = w.confirmed ∧ v.deletes = w.deletes ∧ v.no_insert = w.no_insert ∧
  v.insertion_cnt = w.insertion_cnt ∧ v.insertions = w.insertions ∧
  (bp ≠ 'a' → v.a_subst = w.a_subst) ∧ (bp ≠ 'c' → v.c_subst = w.c_subst) ∧
  (bp ≠ 'g' → v.g_subst = w.g_subst) ∧ (bp ≠ 't' → v.t_subst = w.t_subst)

instance (bp : Char) (v w : Vote_Tally_t) : Decidable (agree_except_subst bp v w) := by
  unfold agree_except_subst; infer_instance

/-- A tally with every summed counter at its ceiling, used to instantiate the
results below. -/
def sample : Vote_Tally_t :=
  { confirmed := 7, deletes := 65535, a_subst := 65535, c_subst := 65535,
    g_subst := 65535, t_subst := 65535, no_insert := 0,
    insertion_cnt := 4294967295, insertions := ['a', 'c', '$', 'g'] }

/-- The tally `sample` with the largest insertion count for which `all()` does
not wrap whatever the counters are. -/
def sampleNoWrap : Vote_Tally_t :=
  { sample with insertion_cnt := 4294639620 }

/-- The tally `sample` with other values of `confirmed`, `no_insert` and
`insertions`. -/
def sampleOther : Vote_Tally_t :=
  { sample with confirmed := 0, no_insert := 9, insertions := ['t'] }

/-! ### The insertion list -/

/-- The library function `std::string::find_first_not_of(c, pos)`: the lowest
position `xpos` with `pos <= xpos < size()` and `at(xpos) != c`, or `npos`. -/
def find_first_not_of (s : List Char) (c : Char) (pos : Nat) : Nat :=
  let i := pos + (s.drop pos).findIdx (fun x => x != c)
  if i < s.length then i else npos

/-- The library function `std::string::find(c, pos)`: the lowest position
`xpos` with `pos <= xpos < size()` and `at(xpos) == c`, or `npos`. -/
def find (s : List Char) (c : Char) (pos : Nat) : Nat :=
  let i := pos + (s.drop pos).findIdx (fun x => x == c)
  if i < s.length then i else npos

/-- The library function `std::string::substr(pos, n)`: it throws when
`pos > size()`, otherwise it copies `min(n, size() - pos)` characters. -/
def substr (s : List Char) (pos n : Nat) : Option (List Char) :=
  if pos > s.length then none else some ((s.drop pos).take n)

/-- The `while` loop of `insertions_list()`, with the loop state `(end, answer)`
and a bound on the number of iterations still allowed; `none` stands for "no
value is returned" (the bound is used up or `substr` throws).  The count
`end - start` is a `size_t` subtraction. -/
def insertions_list_loop (ins : List Char) :
    Nat → Nat → List (List Char) → Option (List (List Char))
  | 0, _, _ => none
  | fuel + 1, end_, answer =>
    let start := find_first_not_of ins INSERTIONS_DELIM end_
    if start ≠ npos then
      let end1 := find ins INSERTIONS_DELIM start
      match substr ins start ((end1 + 2 ^ 64 - start) % 2 ^ 64) with
      | some frag => insertions_list_loop ins fuel end1 (answer ++ [frag])
      | none => none
    else some answer

/-- The member `insertions_list()`: the loop started at `end = 0` with an empty
answer.  One iteration more than the string has characters is always enough. -/
def insertions_list (v : Vote_Tally_t) : Option (List (List Char)) :=
  insertions_list_loop v.insertions (v.insertions.length + 1) 0 []

/-- The tally whose insertion string is `s` and whose counters are zero. -/
def withInsertions (s : List Char) : Vote_Tally_t :=
  { ctor with insertions := s }

/-- A tally whose insertion string has leading, repeated and trailing
delimiters, used to instantiate the results below. -/
def sampleDelims : Vote_Tally_t :=
  withInsertions ['$', '$', 'a', 'c', '$', '$', 'g', '$']

/-! ### Reference notions for the insertion list -/

/-- The maximal delimiter-free runs of a string, left to right: the non-empty
pieces obtained by cutting the string at every delimiter. -/
def runs (s : List Char) : List (List Char) :=
  (s.splitOn INSERTIONS_DELIM).filter (fun f => !f.isEmpty)

/-- Collapse every block of consecutive delimiters to a single delimiter. -/
def collapse : List Char → List Char
  | [] => []
  | [c] => [c]
  | c :: d :: rest =>
    if c = INSERTIONS_DELIM ∧ d = INSERTIONS_DELIM then collapse (d :: rest)
    else c :: collapse (d :: rest)

/-- Remove the delimiters at the front and at the back of a string. -/
def trim (s : List Char) : List Char :=
  (s.dropWhile (fun x => x == INSERTIONS_DELIM)).rdropWhile (fun x => x == INSERTIONS_DELIM)

/-! ### Vote counters -/

/-- The six vote counters of a tally. -/
inductive Counter where
  | confirmed | deletes | a_subst | c_subst | g_subst | t_subst
  deriving DecidableEq, Repr

/-- The value of a counter. -/
def counter (v : Vote_Tally_t) : Counter → Nat
  | .confirmed => v.confirmed
  | .deletes => v.deletes
  | .a_subst => v.a_subst
  | .c_subst => v.c_subst
  | .g_subst => v.g_subst
  | .t_subst => v.t_subst

/-- Store a value in a counter. -/
def setCounter (v : Vote_Tally_t) (k : Counter) (n : Nat) : Vote_Tally_t :=
  match k with
  | .confirmed => { v with confirmed := n }
  | .deletes => { v with deletes := n }
  | .a_subst => { v with a_subst := n }
  | .c_subst => { v with c_subst := n }
  | .g_subst => { v with g_subst := n }
  | .t_subst => { v with t_subst := n }

/-- Modelled from the spec: the increment of a vote counter.  The header
declares the counters and `MAX_VOTE`; the code that casts votes is in the
voting engine, which is not among the sources.  The spec asks that "the engine
must detect and refuse further increments past this ceiling rather than wrap"
and lists "a vote counter would exceed its maximum representable value
(counter-overflow guard)" as fatal: below the ceiling the counter grows by one,
at the ceiling no tally is produced. -/
def cast_vote (v : Vote_Tally_t) (k : Counter) : Option Vote_Tally_t :=
  if v.counter k < MAX_VOTE then some (v.setCounter k (v.counter k + 1)) else none

end Vote_Tally_t

/-! ## Olap_Info_t -/

/-- The struct `Olap_Info_t`: two read identifiers, two 31-bit signed hangs and
two one-bit orientation flags. -/
structure Olap_Info_t where
  a_iid : Nat
  b_iid : Nat
  a_hang : Int
  b_hang : Int
  innie : Bool
  normal : Bool
  deriving DecidableEq, Repr

namespace Olap_Info_t

/-- The values the C++ type can hold: 32-bit identifiers, 31-bit signed hangs. -/
def WF (o : Olap_Info_t) : Prop :=
  o.a_iid < 2 ^ 32 ∧ o.b_iid < 2 ^ 32 ∧
  -(2 ^ 30 : Int) ≤ o.a_hang ∧ o.a_hang < 2 ^ 30 ∧
  -(2 ^ 30 : Int) ≤ o.b_hang ∧ o.b_hang < 2 ^ 30

instance (o : Olap_Info_t) : Decidable o.WF := by
  unfold WF; infer_instance

/-- The constructor `Olap_Info_t()`. -/
def ctor : Olap_Info_t :=
  { a_iid := 0, b_iid := 0, a_hang := 0, b_hang := 0, innie := false, normal := false }

/-- The member `operator<`; the one-bit flags are compared as the integers 0
and 1. -/
def lt (x that : Olap_Info_t) : Bool :=
  if x.b_iid < that.b_iid then true
  else if x.b_iid > that.b_iid then false
  else if x.a_iid < that.a_iid then true
  else if x.a_iid > that.a_iid then false
  else decide (x.innie.toNat < that.innie.toNat)

end Olap_Info_t

/-! ## feParameters -/

/-- The struct `feParameters`, without the two tables `Edit_Match_Limit` and
`Error_Bound`, which the constructor leaves untouched.  A pointer is an
`Option Nat` (`none` is `NULL`); the `double` field `errorRate` holds the
value of the decimal literal assigned to it, as a rational. -/
structure feParameters where
  seqStorePath : Option Nat
  ovlStorePath : Option Nat
  bgnID : Nat
  endID : Nat
  readBases : Option Nat
  readVotes : Option Nat
  reads : Option Nat
  readsLen : Nat
  olaps : Option Nat
  olapsLen : Nat
  outputFileName : Option Nat
  numThreads : Nat
  errorRate : ℚ
  minOverlap : Nat
  Degree_Threshold : Int
  Use_Haplo_Ct : Int
  End_Exclude_Len : Int
  Kmer_Len : Int
  Vote_Qualify_Len : Int

namespace feParameters

/-- The constructor `feParameters()`; `Use_Haplo_Ct` is an `int` and `false`
converts to 0. -/
def ctor : feParameters :=
  { seqStorePath := none
    ovlStorePath := none
    bgnID := 0
    endID := UINT32_MAX
    readBases := none
    readVotes := none
    reads := none
    readsLen := 0
    olaps := none
    olapsLen := 0
    outputFileName := none
    numThreads := 4
    errorRate := 0.06
    minOverlap := 0
    Degree_Threshold := 2
    Use_Haplo_Ct := 0
    End_Exclude_Len := 3
    Kmer_Len := 9
    Vote_Qualify_Len := 9 }

end feParameters

/-! ## tgPosition -/

/-- The class `tgPosition` of `src/stores/tgTig.H`: the placement of an object
in a tig.  The one-bit fields are `Bool`, the `int32` fields are `Int`. -/
structure tgPosition where
  _objID : Nat
  _isRead : Bool
  _isUnitig : Bool
  _isContig : Bool
  _isReverse : Bool
  _spare : Nat
  _anchor : Nat
  _ahang : Int
  _bhang : Int
  _min : Int
  _max : Int
  _deltaOffset : Nat
  _deltaLen : Nat
  deriving DecidableEq, Repr

namespace tgPosition

/-- The accessor `ident()`. -/
def ident (p : tgPosition) : Nat := p._objID

/-- The accessor `isRead()`. -/
def isRead (p : tgPosition) : Bool := p._isRead == true

/-- The accessor `isUnitig()`. -/
def isUnitig (p : tgPosition) : Bool := p._isUnitig == true

/-- The accessor `isContig()`. -/
def isContig (p : tgPosition) : Bool := p._isContig == true

/-- The accessor `anchor()`. -/
def anchor (p : tgPosition) : Nat := p._anchor

/-- The accessor `aHang()`. -/
def aHang (p : tgPosition) : Int := p._ahang

/-- The accessor `bHang()`. -/
def bHang (p : tgPosition) : Int := p._bhang

/-- The accessor `isForward()`. -/
def isForward (p : tgPosition) : Bool := p._isReverse == false

/-- The accessor `isReverse()`. -/
def isReverse (p : tgPosition) : Bool := p._isReverse == true

/-- The accessor `bgn()`. -/
def bgn (p : tgPosition) : Int := if p._isReverse == false then p._min else p._max

/-- The accessor `end()` (`end` is reserved in Lean). -/
def end_ (p : tgPosition) : Int := if p._isReverse == false then p._max else p._min

/-- The accessor `min()`. -/
def min (p : tgPosition) : Int := p._min

/-- The accessor `max()`. -/
def max (p : tgPosition) : Int := p._max

/-- The accessor `deltaOffset()`. -/
def deltaOffset (p : tgPosition) : Nat := p._deltaOffset

/-- The accessor `deltaLength()`. -/
def deltaLength (p : tgPosition) : Nat := p._deltaLen

/-- The member `set(uint32 anchor, int32 ahang, int32 bhang)`: "Set just the
anchor and hangs, leave positions alone." -/
def set3 (p : tgPosition) (anchor : Nat) (ahang bhang : Int) : tgPosition :=
  { p with _anchor := anchor, _ahang := ahang, _bhang := bhang }

/-- The member `set(uint32 anchor, int32 ahang, int32 bhang, int32 bgn, int32
end)`: "Set everything." -/
def set5 (p : tgPosition) (anchor : Nat) (ahang bhang bgn end_ : Int) : tgPosition :=
  if bgn < end_ then
    { p with _anchor := anchor, _ahang := ahang, _bhang := bhang,
             _min := bgn, _max := end_, _isReverse := false }
  else
    { p with _anchor := anchor, _ahang := ahang, _bhang := bhang,
             _min := end_, _max := bgn, _isReverse := true }

/-- The member `set(int32 bgn, int32 end)`: "Set the coords, ignoring
orientation."  Both branches of the source make the same two assignments. -/
def set2 (p : tgPosition) (bgn end_ : Int) : tgPosition :=
  if bgn < end_ then
    { p with _min := bgn, _max := end_ }
  else
    { p with _min := bgn, _max := end_ }

/-- The member `operator<`. -/
def lt (x that : tgPosition) : Bool :=
  let al := x.min
  let bl := that.min
  if al ≠ bl then decide (al < bl)
  else
    let ah := x.max
    let bh := that.max
    decide (ah > bh)

/-- A forward position, used to instantiate the results below. -/
def sampleFwd : tgPosition :=
  { _objID := 11, _isRead := true, _isUnitig := false, _isContig := false,
    _isReverse := false, _spare := 0, _anchor := 4, _ahang := -2, _bhang := 5,
    _min := 10, _max := 50, _deltaOffset := 3, _deltaLen := 2 }

/-- A reverse position, used to instantiate the results below. -/
def sampleRev : tgPosition :=
  { sampleFwd with _isReverse := true }

end tgPosition

/-! ## tgTig -/

/-- The child bookkeeping of the class `tgTig`: the array `_children` (its
elements are the slots `_children + 0`, `_children + 1`, ...), the number of
slots in use and the number allocated.  The other members of the class play no
part in child access and are left out. -/
structure tgTig where
  _children : List tgPosition
  _childrenLen : Nat
  _childrenMax : Nat
  deriving DecidableEq, Repr

namespace tgTig

/-- The values the C++ type can hold: 32-bit lengths. -/
def WF (t : tgTig) : Prop :=
  t._childrenLen < 2 ^ 32 ∧ t._childrenMax < 2 ^ 32

instance (t : tgTig) : Decidable t.WF := by
  unfold WF; infer_instance

/-- The accessor `numberOfChildren()`. -/
def numberOfChildren (t : tgTig) : Nat := t._childrenLen

/-- The outcome of a member function that asserts: either it returns, and the
outcome is the tig afterwards with the returned pointer `_children + c` given as
the slot number `c`; or the assertion fails, and the outcome is the tig as it is
when the program aborts. -/
inductive Outcome where
  | ok (t : tgTig) (slot : Nat)
  | abort (t : tgTig)
  deriving DecidableEq, Repr

/-- The member `getChild(c)`. -/
def getChild (t : tgTig) (c : Nat) : Outcome :=
  if c < t._childrenLen then .ok t c else .abort t

/-- The member `addChild(c)`; `_childrenLen++` is a `uint32` increment. -/
def addChild (t : tgTig) (c : Nat) : Outcome :=
  if c = t._childrenLen then
    .ok { t with _childrenLen := (t._childrenLen + 1) % 2 ^ 32 } c
  else .abort t

/-- A tig with three children in use, used to instantiate the results below. -/
def sample : tgTig :=
  { _children := [tgPosition.sampleFwd, tgPosition.sampleRev, tgPosition.sampleFwd,
      tgPosition.sampleFwd],
    _childrenLen := 3, _childrenMax := 4 }

/-- A tig whose child count is at the top of its 32-bit range. -/
def sampleFull : tgTig :=
  { _children := [], _childrenLen := 4294967295, _childrenMax := 4294967295 }

/-- The tig `sampleFull` with its child count wrapped round to zero. -/
def sampleWrapped : tgTig :=
  { sampleFull with _childrenLen := 0 }

/-- The tig `sample` with one more child in use. -/
def sampleGrown : tgTig :=
  { sample with _childrenLen := 4 }

end tgTig

/-! ## pedWorkArea_t -/

/-- Conversion of a `double` to `uint32`: the value is truncated toward zero,
and the behaviour is undefined, here `none`, when the truncated value is not a
`uint32`.  A `double` is given by its value, a rational. -/
def double_to_uint32 (x : ℚ) : Option Nat :=
  if -1 < x ∧ x < 2 ^ 32 then some ⌊x⌋.toNat else none

/-- Conversion of a `uint32` to `int32`: the value modulo `2 ^ 32` in the signed
range. -/
def uint32_to_int32 (n : Nat) : Int :=
  if n < 2 ^ 31 then (n : Int) else (n : Int) - 2 ^ 32

/-- The struct `pedWorkArea_t`.  A pointer is an `Option Nat` (`none` is
`NULL`); `Edit_Array_Lazy` is `NULL` or an array of row pointers; `alloc` is the
vector of allocated blocks. -/
structure pedWorkArea_t where
  G : Option Nat
  delta : List Int
  deltaStack : List Int
  deltaLen : Int
  alloc : List Nat
  Edit_Array_Lazy : Option (List (Option Nat))
  Edit_Array_Max : Int

namespace pedWorkArea_t

/-- The constructor `pedWorkArea_t()`.  The constant `AS_MAX_READLEN` is defined
outside the sources and is a parameter. -/
def ctor (AS_MAX_READLEN : Nat) : pedWorkArea_t :=
  { G := none
    delta := List.replicate AS_MAX_READLEN 0
    deltaStack := List.replicate AS_MAX_READLEN 0
    deltaLen := 0
    alloc := []
    Edit_Array_Lazy := none
    Edit_Array_Max := 0 }

/-- The member `initialize(G_, errorRate)` (the name is reserved in Lean, hence
the underscore).  The `double` multiplication is the
parameter `fmul`, so that nothing is assumed about its rounding; `1 + (uint32)...`
is a `uint32` addition, stored in the `int32` field `Edit_Array_Max`;
`new int32 * [Edit_Array_Max]` throws for a negative bound (`none`), and
`memset` makes every slot `NULL`. -/
def initialize_ (fmul : ℚ → ℚ → ℚ) (AS_MAX_READLEN : Nat) (w : pedWorkArea_t)
    (G_ : Option Nat) (errorRate : ℚ) : Option pedWorkArea_t :=
  match double_to_uint32 (fmul errorRate (AS_MAX_READLEN : ℚ)) with
  | none => none
  | some u =>
    let max := uint32_to_int32 ((1 + u) % 2 ^ 32)
    if max < 0 then none
    else some { w with G := G_, Edit_Array_Max := max,
                       Edit_Array_Lazy := some (List.replicate max.toNat none) }

end pedWorkArea_t

/-! ## Properties of the tally sums -/

/-- C1: for every tally the C++ type can hold, `total()` is the sum of the
deletion counter and the four substitution counters, `ins_total()` is the
insertion count, and `all()` is `total() + ins_total()` modulo `2 ^ 32`. -/
theorem Vote_Tally_t_totals (v : Vote_Tally_t) (h : v.WF) :
    v.total = v.deletes + v.a_subst + v.c_subst + v.g_subst + v.t_subst ∧
    v.ins_total = v.insertion_cnt ∧
    v.all = (v.total + v.ins_total) % 2 ^ 32 ∧
    v.all = (v.deletes + v.a_subst + v.c_subst + v.g_subst + v.t_subst +
      v.insertion_cnt) % 2 ^ 32 := by
  obtain ⟨_, h1, h2, h3, h4, h5, _⟩ := h
  have ht : v.total = v.deletes + v.a_subst + v.c_subst + v.g_subst + v.t_subst := by
    unfold Vote_Tally_t.total
    apply Nat.mod_eq_of_lt
    omega
  refine ⟨ht, rfl, rfl, ?_⟩
  unfold Vote_Tally_t.all Vote_Tally_t.ins_total
  rw [ht]

theorem Vote_Tally_t_totals_witness :
    Vote_Tally_t.sample.WF ∧
    (Vote_Tally_t.sample.total = Vote_Tally_t.sample.deletes + Vote_Tally_t.sample.a_subst +
        Vote_Tally_t.sample.c_subst + Vote_Tally_t.sample.g_subst + Vote_Tally_t.sample.t_subst ∧
      Vote_Tally_t.sample.ins_total = Vote_Tally_t.sample.insertion_cnt ∧
      Vote_Tally_t.sample.all =
        (Vote_Tally_t.sample.total + Vote_Tally_t.sample.ins_total) % 2 ^ 32 ∧
      Vote_Tally_t.sample.all =
        (Vote_Tally_t.sample.deletes + Vote_Tally_t.sample.a_subst +
          Vote_Tally_t.sample.c_subst + Vote_Tally_t.sample.g_subst +
          Vote_Tally_t.sample.t_subst + Vote_Tally_t.sample.insertion_cnt) % 2 ^ 32) :=
  ⟨by decide, Vote_Tally_t_totals Vote_Tally_t.sample (by decide)⟩

/-- C2: `all_but(bp)` leaves out the substitution counter of `bp` itself: for
each of the four bases it is the deletion counter plus the insertion count plus
the three other substitution counters, modulo `2 ^ 32`; hence two tallies that
differ only in the counter of `bp` have the same `all_but(bp)`. -/
theorem Vote_Tally_t_all_but_excludes_own (v : Vote_Tally_t) (h : v.WF) :
    v.all_but 'a' =
      some ((v.deletes + v.insertion_cnt + (v.c_subst + v.g_subst + v.t_subst)) % 2 ^ 32) ∧
    v.all_but 'c' =
      some ((v.deletes + v.insertion_cnt + (v.a_subst + v.g_subst + v.t_subst)) % 2 ^ 32) ∧
    v.all_but 'g' =
      some ((v.deletes + v.insertion_cnt + (v.a_subst + v.c_subst + v.t_subst)) % 2 ^ 32) ∧
    v.all_but 't' =
      some ((v.deletes + v.insertion_cnt + (v.a_subst + v.c_subst + v.g_subst)) % 2 ^ 32) ∧
    ∀ (bp : Char) (w : Vote_Tally_t), bp ∈ ['a', 'c', 'g', 't'] → w.WF →
      Vote_Tally_t.agree_except_subst bp v w → v.all_but bp = w.all_but bp := by
  have key : ∀ u : Vote_Tally_t, u.WF →
      u.all_but 'a' =
        some ((u.deletes + u.insertion_cnt + (u.c_subst + u.g_subst + u.t_subst)) % 2 ^ 32) ∧
      u.all_but 'c' =
        some ((u.deletes + u.insertion_cnt + (u.a_subst + u.g_subst + u.t_subst)) % 2 ^ 32) ∧
      u.all_but 'g' =
        some ((u.deletes + u.insertion_cnt + (u.a_subst + u.c_subst + u.t_subst)) % 2 ^ 32) ∧
      u.all_but 't' =
        some ((u.deletes + u.insertion_cnt + (u.a_subst + u.c_subst + u.g_subst)) % 2 ^ 32) := by
    intro u hu
    obtain ⟨_, h1, h2, h3, h4, h5, _, h7, _⟩ := hu
    simp only [Vote_Tally_t.all_but, Vote_Tally_t.subst, Vote_Tally_t.all, Vote_Tally_t.total,
      Vote_Tally_t.ins_total]
    refine ⟨?_, ?_, ?_, ?_⟩ <;> simp <;> omega
  obtain ⟨ka, kc, kg, kt⟩ := key v h
  refine ⟨ka, kc, kg, kt, ?_⟩
  intro bp w hbp hw hag
  obtain ⟨wa, wc, wg, wt⟩ := key w hw
  obtain ⟨_, e1, _, e2, _, ea, ec, eg, et⟩ := hag
  simp only [List.mem_cons, List.mem_singleton, List.not_mem_nil, or_false] at hbp
  rcases hbp with rfl | rfl | rfl | rfl
  · rw [ka, wa, e1, e2, ec (by decide), eg (by decide), et (by decide)]
  · rw [kc, wc, e1, e2, ea (by decide), eg (by decide), et (by decide)]
  · rw [kg, wg, e1, e2, ea (by decide), ec (by decide), et (by decide)]
  · rw [kt, wt, e1, e2, ea (by decide), ec (by decide), eg (by decide)]

theorem Vote_Tally_t_all_but_excludes_own_witness :
    Vote_Tally_t.sample.WF ∧
    Vote_Tally_t.sample.all_but 'a' =
      some ((Vote_Tally_t.sample.deletes + Vote_Tally_t.sample.insertion_cnt +
        (Vote_Tally_t.sample.c_subst + Vote_Tally_t.sample.g_subst +
          Vote_Tally_t.sample.t_subst)) % 2 ^ 32) ∧
    Vote_Tally_t.sample.all_but 'a' =
      (Vote_Tally_t.sample.setCounter Vote_Tally_t.Counter.a_subst 0).all_but 'a' :=
  ⟨by decide,
   (Vote_Tally_t_all_but_excludes_own Vote_Tally_t.sample (by decide)).1,
   (Vote_Tally_t_all_but_excludes_own Vote_Tally_t.sample (by decide)).2.2.2.2 'a'
     (Vote_Tally_t.sample.setCounter Vote_Tally_t.Counter.a_subst 0)
     (by decide) (by decide) (by decide)⟩

/-- C7: `subst(bp)` and `all_but(bp)` return a value exactly for the lower-case
bases `a`, `c`, `g`, `t`, and `subst` then returns the counter of that base; for
every other character, upper-case bases and `n` included, the assertion fails
and nothing is returned. -/
theorem Vote_Tally_t_subst_domain (v : Vote_Tally_t) (bp : Char) :
    ((v.subst bp).isSome ↔ bp ∈ ['a', 'c', 'g', 't']) ∧
    ((v.all_but bp).isSome ↔ bp ∈ ['a', 'c', 'g', 't']) ∧
    (v.subst bp = none ↔ bp ∉ ['a', 'c', 'g', 't']) ∧
    (v.all_but bp = none ↔ bp ∉ ['a', 'c', 'g', 't']) ∧
    v.subst 'a' = some v.a_subst ∧ v.subst 'c' = some v.c_subst ∧
    v.subst 'g' = some v.g_subst ∧ v.subst 't' = some v.t_subst ∧
    v.subst 'A' = none ∧ v.subst 'C' = none ∧ v.subst 'G' = none ∧
    v.subst 'T' = none ∧ v.subst 'n' = none ∧
    v.all_but 'A' = none ∧ v.all_but 'C' = none ∧ v.all_but 'G' = none ∧
    v.all_but 'T' = none ∧ v.all_but 'n' = none := by
  have hs : (v.subst bp).isSome ↔ bp ∈ ['a', 'c', 'g', 't'] := by
    simp only [Vote_Tally_t.subst, List.mem_cons, List.mem_singleton, List.not_mem_nil, or_false]
    by_cases ha : bp = 'a'
    · simp [ha]
    by_cases hc : bp = 'c'
    · simp [hc]
    by_cases hg : bp = 'g'
    · simp [hg]
    by_cases ht : bp = 't'
    · simp [ht]
    simp [ha, hc, hg, ht]
  have hb : (v.all_but bp).isSome = (v.subst bp).isSome := by
    unfold Vote_Tally_t.all_but
    cases v.subst bp <;> rfl
  have hn : ∀ o : Option Nat, o = none ↔ ¬ (o.isSome = true) := by
    intro o; cases o <;> simp
  refine ⟨hs, by rw [hb]; exact hs, by rw [hn, hs], by rw [hn, hb, hs],
    rfl, rfl, rfl, rfl, rfl, rfl, rfl, rfl, rfl, rfl, rfl, rfl, rfl, rfl⟩

/-! ## Properties of the overlap order -/

/-- The comparison of two overlaps, read off the cascade of tests. -/
theorem Olap_Info_t_lt_cascade (x y : Olap_Info_t) :
    x.lt y = true ↔
      x.b_iid < y.b_iid ∨
      (x.b_iid = y.b_iid ∧ x.a_iid < y.a_iid) ∨
      (x.b_iid = y.b_iid ∧ x.a_iid = y.a_iid ∧ x.innie = false ∧ y.innie = true) := by
  unfold Olap_Info_t.lt
  cases hx : x.innie <;> cases hy : y.innie <;> simp only [Bool.toNat] <;>
    split_ifs <;> simp <;> omega

/-- C4: `operator<` on overlaps is the lexicographic order on the key
`(b_iid, a_iid, innie)`, a clear `innie` flag coming before a set one. -/
theorem Olap_Info_t_lt_lex (x y : Olap_Info_t) :
    x.lt y = true ↔
      x.b_iid < y.b_iid ∨
      (x.b_iid = y.b_iid ∧ x.a_iid < y.a_iid) ∨
      (x.b_iid = y.b_iid ∧ x.a_iid = y.a_iid ∧ x.innie = false ∧ y.innie = true) := by
  unfold Olap_Info_t.lt
  cases hx : x.innie <;> cases hy : y.innie <;> simp only [Bool.toNat] <;>
    split_ifs <;> simp <;> omega

/-- C9: `operator<` on overlaps is a strict weak ordering: irreflexive,
asymmetric, transitive; two overlaps are unordered both ways exactly when
they agree on `b_iid`, `a_iid` and `innie`; overlaps with the same key compare
alike whatever their hangs and `normal` flag; and two overlaps of the same
ordered pair with different `innie` are strictly ordered one way. -/
theorem Olap_Info_t_lt_strict_weak :
    (∀ x : Olap_Info_t, x.lt x = false) ∧
    (∀ x y : Olap_Info_t, x.lt y = true → y.lt x = false) ∧
    (∀ x y z : Olap_Info_t, x.lt y = true → y.lt z = true → x.lt z = true) ∧
    (∀ x y : Olap_Info_t, (x.lt y = false ∧ y.lt x = false) ↔
      (x.b_iid = y.b_iid ∧ x.a_iid = y.a_iid ∧ x.innie = y.innie)) ∧
    (∀ x y x1 y1 : Olap_Info_t,
      x.b_iid = x1.b_iid → x.a_iid = x1.a_iid → x.innie = x1.innie →
      y.b_iid = y1.b_iid → y.a_iid = y1.a_iid → y.innie = y1.innie →
      x.lt y = x1.lt y1) ∧
    (∀ x y : Olap_Info_t, x.b_iid = y.b_iid → x.a_iid = y.a_iid → x.innie ≠ y.innie →
      (x.lt y = true ∧ y.lt x = false) ∨ (y.lt x = true ∧ x.lt y = false)) := by
  have hf : ∀ x y : Olap_Info_t, x.lt y = false ↔ ¬ (x.lt y = true) := by
    intro x y; cases x.lt y <;> simp
  refine ⟨?_, ?_, ?_, ?_, ?_, ?_⟩
  · intro x
    rw [hf, Olap_Info_t_lt_cascade]
    cases x.innie <;> simp
  · intro x y hxy
    rw [hf, Olap_Info_t_lt_cascade]
    rw [Olap_Info_t_lt_cascade] at hxy
    cases hx : x.innie <;> cases hy : y.innie <;> simp [hx, hy] at hxy ⊢ <;> omega
  · intro x y z hxy hyz
    rw [Olap_Info_t_lt_cascade] at hxy hyz ⊢
    cases hx : x.innie <;> cases hy : y.innie <;> cases hz : z.innie <;>
      simp [hx, hy, hz] at hxy hyz ⊢ <;> omega
  · intro x y
    rw [hf, hf, Olap_Info_t_lt_cascade, Olap_Info_t_lt_cascade]
    cases hx : x.innie <;> cases hy : y.innie <;> simp <;> omega
  · intro x y x1 y1 h1 h2 h3 h4 h5 h6
    unfold Olap_Info_t.lt
    rw [h1, h2, h3, h4, h5, h6]
  · intro x y h1 h2 h3
    rw [hf, hf, Olap_Info_t_lt_cascade, Olap_Info_t_lt_cascade]
    cases hx : x.innie <;> cases hy : y.innie <;> simp [hx, hy] at h3 ⊢ <;> omega

theorem Olap_Info_t_lt_strict_weak_witness :
    ({ a_iid := 3, b_iid := 5, a_hang := 10, b_hang := -4, innie := true,
        normal := false } : Olap_Info_t).lt
      { a_iid := 3, b_iid := 5, a_hang := -7, b_hang := 2, innie := false,
        normal := true } = false :=
  Olap_Info_t_lt_strict_weak.2.1
    { a_iid := 3, b_iid := 5, a_hang := -7, b_hang := 2, innie := false, normal := true }
    { a_iid := 3, b_iid := 5, a_hang := 10, b_hang := -4, innie := true, normal := false }
    (by decide)

/-- C5, evaluated on the code: the record produced by the constructor
`Olap_Info_t()` is a well-formed record with both orientation flags clear, so
`normal != innie` fails for it. -/
theorem Olap_Info_t_ctor_flags_both_clear :
    Olap_Info_t.ctor.WF ∧ Olap_Info_t.ctor.innie = false ∧
    Olap_Info_t.ctor.normal = false ∧
    ¬ (Olap_Info_t.ctor.normal ≠ Olap_Info_t.ctor.innie) := by
  decide

/-! ## Properties of the run parameters -/

/-- C8: a freshly constructed `feParameters` has `Degree_Threshold = 2`,
`Use_Haplo_Ct = 0` (false), `End_Exclude_Len = 3`, `Kmer_Len = 9`,
`Vote_Qualify_Len = 9`, `errorRate = 6/100`, `minOverlap = 0`, `bgnID = 0` and
`endID = UINT32_MAX = 2 ^ 32 - 1`. -/
theorem feParameters_ctor_defaults :
    feParameters.ctor.Degree_Threshold = 2 ∧
    feParameters.ctor.Use_Haplo_Ct = 0 ∧
    feParameters.ctor.End_Exclude_Len = 3 ∧
    feParameters.ctor.Kmer_Len = 9 ∧
    feParameters.ctor.Vote_Qualify_Len = 9 ∧
    feParameters.ctor.errorRate = 6 / 100 ∧
    feParameters.ctor.minOverlap = 0 ∧
    feParameters.ctor.bgnID = 0 ∧
    feParameters.ctor.endID = UINT32_MAX ∧
    UINT32_MAX = 2 ^ 32 - 1 := by
  refine ⟨rfl, rfl, rfl, rfl, rfl, ?_, rfl, rfl, rfl, by decide⟩
  norm_num [feParameters.ctor]

/-! ## Properties of the vote counters -/

/-- C6: a vote counter of a tally never exceeds `MAX_VOTE = 65535`; an
increment of a counter that is at 65535 is refused (no tally is produced);
below the ceiling the increment succeeds and the counter grows by exactly one,
stays within the ceiling, and the tally stays well formed, so the field never
wraps round to 0. -/
theorem Vote_Tally_t_counter_ceiling (v : Vote_Tally_t) (k : Vote_Tally_t.Counter)
    (h : v.WF) :
    MAX_VOTE = 65535 ∧
    v.counter k ≤ MAX_VOTE ∧
    (v.cast_vote k = none ↔ v.counter k = MAX_VOTE) ∧
    (v.counter k < MAX_VOTE →
      ∃ w, v.cast_vote k = some w ∧ w.WF ∧ w.counter k = v.counter k + 1 ∧
        w.counter k ≤ MAX_VOTE ∧ w.counter k ≠ 0) := by
  obtain ⟨h0, h1, h2, h3, h4, h5, h6, h7, h8⟩ := h
  have hle : v.counter k ≤ MAX_VOTE := by
    cases k <;> simp only [Vote_Tally_t.counter, MAX_VOTE] <;> omega
  refine ⟨rfl, hle, ?_, ?_⟩
  · unfold Vote_Tally_t.cast_vote
    split_ifs with hlt
    · simp; omega
    · simp; omega
  · intro hlt
    refine ⟨v.setCounter k (v.counter k + 1), ?_, ?_, ?_, ?_, ?_⟩
    · simp [Vote_Tally_t.cast_vote, hlt]
    · simp only [MAX_VOTE] at hlt
      cases k <;>
        simp only [Vote_Tally_t.counter, Vote_Tally_t.setCounter, Vote_Tally_t.WF] at hlt ⊢ <;>
        refine ⟨?_, ?_, ?_, ?_, ?_, ?_, ?_, ?_, ?_⟩ <;> first | assumption | omega
    · cases k <;> rfl
    · have : (v.setCounter k (v.counter k + 1)).counter k = v.counter k + 1 := by
        cases k <;> rfl
      rw [this]; omega
    · have : (v.setCounter k (v.counter k + 1)).counter k = v.counter k + 1 := by
        cases k <;> rfl
      rw [this]; omega

theorem Vote_Tally_t_counter_ceiling_witness :
    Vote_Tally_t.sample.WF ∧
    Vote_Tally_t.sample.counter Vote_Tally_t.Counter.a_subst = MAX_VOTE ∧
    Vote_Tally_t.sample.cast_vote Vote_Tally_t.Counter.a_subst = none ∧
    ∃ w, Vote_Tally_t.sample.cast_vote Vote_Tally_t.Counter.confirmed = some w ∧ w.WF ∧
      w.counter Vote_Tally_t.Counter.confirmed =
        Vote_Tally_t.sample.counter Vote_Tally_t.Counter.confirmed + 1 ∧
      w.counter Vote_Tally_t.Counter.confirmed ≤ MAX_VOTE ∧
      w.counter Vote_Tally_t.Counter.confirmed ≠ 0 :=
  ⟨by decide, by decide,
   (Vote_Tally_t_counter_ceiling Vote_Tally_t.sample Vote_Tally_t.Counter.a_subst
     (by decide)).2.2.1.2 (by decide),
   (Vote_Tally_t_counter_ceiling Vote_Tally_t.sample Vote_Tally_t.Counter.confirmed
     (by decide)).2.2.2 (by decide)⟩

/-! ## The insertion list: scanning lemmas -/

theorem splitOn_delim_nil : List.splitOn Vote_Tally_t.INSERTIONS_DELIM ([] : List Char) = [[]] := by
  simp [List.splitOn]

theorem splitOn_delim_cons_delim (cs : List Char) :
    List.splitOn Vote_Tally_t.INSERTIONS_DELIM (Vote_Tally_t.INSERTIONS_DELIM :: cs) =
      [] :: List.splitOn Vote_Tally_t.INSERTIONS_DELIM cs := by
  simp [List.splitOn, List.splitOnP_cons]

theorem splitOn_delim_cons_other (c : Char) (cs : List Char)
    (hc : c ≠ Vote_Tally_t.INSERTIONS_DELIM) :
    List.splitOn Vote_Tally_t.INSERTIONS_DELIM (c :: cs) =
      (List.splitOn Vote_Tally_t.INSERTIONS_DELIM cs).modifyHead (List.cons c) := by
  simp [List.splitOn, List.splitOnP_cons, hc]

theorem splitOn_delim_ne_nil (cs : List Char) :
    List.splitOn Vote_Tally_t.INSERTIONS_DELIM cs ≠ [] := by
  simp [List.splitOn, List.splitOnP_ne_nil]

theorem runs_nil : Vote_Tally_t.runs [] = [] := by
  simp [Vote_Tally_t.runs, splitOn_delim_nil]

theorem runs_cons_delim (cs : List Char) :
    Vote_Tally_t.runs (Vote_Tally_t.INSERTIONS_DELIM :: cs) = Vote_Tally_t.runs cs := by
  simp [Vote_Tally_t.runs, splitOn_delim_cons_delim]

theorem runs_dropWhile (r : List Char) :
    Vote_Tally_t.runs (r.dropWhile (fun x => x == Vote_Tally_t.INSERTIONS_DELIM)) =
      Vote_Tally_t.runs r := by
  induction r with
  | nil => rfl
  | cons c cs ih =>
    by_cases hc : c = Vote_Tally_t.INSERTIONS_DELIM
    · subst hc
      rw [List.dropWhile_cons_of_pos (by simp), ih, runs_cons_delim]
    · rw [List.dropWhile_cons_of_neg (by simpa using hc)]

theorem runs_step (r : List Char) (hr : r ≠ [])
    (hh : r.dropWhile (fun x => x == Vote_Tally_t.INSERTIONS_DELIM) = r) :
    r.takeWhile (fun x => x != Vote_Tally_t.INSERTIONS_DELIM) ≠ [] ∧
    Vote_Tally_t.runs r =
      r.takeWhile (fun x => x != Vote_Tally_t.INSERTIONS_DELIM) ::
        Vote_Tally_t.runs (r.dropWhile (fun x => x != Vote_Tally_t.INSERTIONS_DELIM)) := by
  obtain ⟨c, cs, rfl⟩ := List.exists_cons_of_ne_nil hr
  have hc : c ≠ Vote_Tally_t.INSERTIONS_DELIM := by
    intro h
    subst h
    rw [List.dropWhile_cons_of_pos (by simp)] at hh
    have := (List.dropWhile_sublist (fun x => x == Vote_Tally_t.INSERTIONS_DELIM) (l := cs)).length_le
    rw [hh] at this
    simp at this
  have hne : (c :: cs).takeWhile (fun x => x != Vote_Tally_t.INSERTIONS_DELIM) ≠ [] := by
    rw [List.takeWhile_cons_of_pos (by simpa using hc)]
    simp
  refine ⟨hne, ?_⟩
  generalize hl : c :: cs = l at hne
  have hsplit := List.takeWhile_append_dropWhile (fun x => x != Vote_Tally_t.INSERTIONS_DELIM) l
  have htake : ∀ x ∈ l.takeWhile (fun x => x != Vote_Tally_t.INSERTIONS_DELIM),
      ¬ ((fun y => y == Vote_Tally_t.INSERTIONS_DELIM) x = true) := by
    intro x hx
    have := List.mem_takeWhile_imp hx
    simpa using this
  cases hd : l.dropWhile (fun x => x != Vote_Tally_t.INSERTIONS_DELIM) with
  | nil =>
    rw [hd, List.append_nil] at hsplit
    rw [hsplit] at htake ⊢
    rw [runs_nil]
    have : l ≠ [] := by rw [← hl]; simp
    simp [Vote_Tally_t.runs, List.splitOn, List.splitOnP_eq_single (fun y => y == Vote_Tally_t.INSERTIONS_DELIM) l htake, this]
  | cons d t =>
    have hdd : d = Vote_Tally_t.INSERTIONS_DELIM := by
      have := List.head_dropWhile_not (fun x => x != Vote_Tally_t.INSERTIONS_DELIM) l
        (by rw [hd]; simp)
      simpa [hd] using this
    subst hdd
    rw [runs_cons_delim]
    rw [hd] at hsplit
    conv_lhs => rw [← hsplit]
    have h1 := List.splitOnP_first (fun y => y == Vote_Tally_t.INSERTIONS_DELIM) _ htake
      Vote_Tally_t.INSERTIONS_DELIM (by simp) t
    simp only [Vote_Tally_t.runs, List.splitOn]
    rw [h1]
    simp [hne]

theorem scan_spec (s : List Char) (p : Char → Bool) (e : Nat) :
    s.drop (e + (s.drop e).findIdx p) = (s.drop e).dropWhile (fun x => !p x) ∧
    (s.drop e).take ((s.drop e).findIdx p) = (s.drop e).takeWhile (fun x => !p x) ∧
    (e + (s.drop e).findIdx p < s.length ↔ (s.drop e).dropWhile (fun x => !p x) ≠ []) := by
  have hp : (fun a => !(fun x => !p x) a) = p := by
    funext a; simp
  have h1 : s.drop (e + (s.drop e).findIdx p) = (s.drop e).dropWhile (fun x => !p x) := by
    rw [List.dropWhile_eq_drop_findIdx_not, hp, List.drop_drop]
  refine ⟨h1, ?_, ?_⟩
  · rw [List.takeWhile_eq_take_findIdx_not, hp]
  · rw [← h1, Ne, List.drop_eq_nil_iff]
    omega

theorem find_first_not_of_spec (s : List Char) (e : Nat) :
    ((s.drop e).dropWhile (fun x => x == Vote_Tally_t.INSERTIONS_DELIM) = [] →
      Vote_Tally_t.find_first_not_of s Vote_Tally_t.INSERTIONS_DELIM e = npos) ∧
    ((s.drop e).dropWhile (fun x => x == Vote_Tally_t.INSERTIONS_DELIM) ≠ [] →
      Vote_Tally_t.find_first_not_of s Vote_Tally_t.INSERTIONS_DELIM e < s.length ∧
      s.drop (Vote_Tally_t.find_first_not_of s Vote_Tally_t.INSERTIONS_DELIM e) =
        (s.drop e).dropWhile (fun x => x == Vote_Tally_t.INSERTIONS_DELIM)) := by
  obtain ⟨h1, _, h3⟩ := scan_spec s (fun x => x != Vote_Tally_t.INSERTIONS_DELIM) e
  have hq : (fun x => !(fun y => y != Vote_Tally_t.INSERTIONS_DELIM) x) =
      (fun x => x == Vote_Tally_t.INSERTIONS_DELIM) := by
    funext a
    show (!(!(a == Vote_Tally_t.INSERTIONS_DELIM))) = (a == Vote_Tally_t.INSERTIONS_DELIM)
    exact Bool.not_not _
  rw [hq] at h1 h3
  unfold Vote_Tally_t.find_first_not_of
  constructor
  · intro h
    have : ¬ (e + (s.drop e).findIdx (fun x => x != Vote_Tally_t.INSERTIONS_DELIM) < s.length) := by
      rw [h3]; exact fun hh => hh h
    simp only [this, if_false]
  · intro h
    have : e + (s.drop e).findIdx (fun x => x != Vote_Tally_t.INSERTIONS_DELIM) < s.length :=
      h3.mpr h
    simp only [this, if_true]
    exact ⟨trivial, h1⟩

theorem find_spec (s : List Char) (k : Nat) :
    ((s.drop k).dropWhile (fun x => x != Vote_Tally_t.INSERTIONS_DELIM) = [] →
      Vote_Tally_t.find s Vote_Tally_t.INSERTIONS_DELIM k = npos ∧
      (s.drop k).takeWhile (fun x => x != Vote_Tally_t.INSERTIONS_DELIM) = s.drop k) ∧
    ((s.drop k).dropWhile (fun x => x != Vote_Tally_t.INSERTIONS_DELIM) ≠ [] →
      ∃ m, Vote_Tally_t.find s Vote_Tally_t.INSERTIONS_DELIM k = k + m ∧ k + m < s.length ∧
        (s.drop k).take m = (s.drop k).takeWhile (fun x => x != Vote_Tally_t.INSERTIONS_DELIM) ∧
        s.drop (k + m) = (s.drop k).dropWhile (fun x => x != Vote_Tally_t.INSERTIONS_DELIM)) := by
  obtain ⟨h1, h2, h3⟩ := scan_spec s (fun x => x == Vote_Tally_t.INSERTIONS_DELIM) k
  have hq : (fun x => !(fun y => y == Vote_Tally_t.INSERTIONS_DELIM) x) =
      (fun x => x != Vote_Tally_t.INSERTIONS_DELIM) := by
    funext a; rfl
  rw [hq] at h1 h2 h3
  unfold Vote_Tally_t.find
  constructor
  · intro h
    have : ¬ (k + (s.drop k).findIdx (fun x => x == Vote_Tally_t.INSERTIONS_DELIM) < s.length) := by
      rw [h3]; exact fun hh => hh h
    simp only [this, if_false]
    refine ⟨trivial, ?_⟩
    have := List.takeWhile_append_dropWhile (fun x => x != Vote_Tally_t.INSERTIONS_DELIM) (s.drop k)
    rw [h, List.append_nil] at this
    exact this
  · intro h
    have : k + (s.drop k).findIdx (fun x => x == Vote_Tally_t.INSERTIONS_DELIM) < s.length :=
      h3.mpr h
    simp only [this, if_true]
    exact ⟨_, rfl, this, h2, h1⟩

/-- The loop of `insertions_list()` returns, and appends the runs of the part
of the string that starts at `end`, as soon as it is allowed more iterations
than that part has characters. -/
theorem insertions_list_loop_spec (s : List Char) (hs : s.length < npos) :
    ∀ (n e : Nat) (ans : List (List Char)), (s.drop e).length < n →
      Vote_Tally_t.insertions_list_loop s n e ans = some (ans ++ Vote_Tally_t.runs (s.drop e)) := by
  intro n
  induction n with
  | zero => intro e ans h; omega
  | succ n ih =>
    intro e ans hn
    obtain ⟨hf0, hf1⟩ := find_first_not_of_spec s e
    unfold Vote_Tally_t.insertions_list_loop
    by_cases hr : (s.drop e).dropWhile (fun x => x == Vote_Tally_t.INSERTIONS_DELIM) = []
    · have h0 := hf0 hr
      have hruns : Vote_Tally_t.runs (s.drop e) = [] := by
        rw [← runs_dropWhile, hr, runs_nil]
      simp only [h0, ne_eq, not_true_eq_false, if_false, hruns, List.append_nil]
    · obtain ⟨hlt, hdrop⟩ := hf1 hr
      generalize Vote_Tally_t.find_first_not_of s Vote_Tally_t.INSERTIONS_DELIM e = start
        at hlt hdrop
      have hne : start ≠ npos := by omega
      have hr1 : s.drop start ≠ [] := by rw [hdrop]; exact hr
      have hh : (s.drop start).dropWhile (fun x => x == Vote_Tally_t.INSERTIONS_DELIM) =
          s.drop start := by
        rw [hdrop, List.dropWhile_idempotent]
      obtain ⟨hfrag, hstep⟩ := runs_step (s.drop start) hr1 hh
      have hlen1 : (s.drop start).length ≤ (s.drop e).length := by
        rw [hdrop]
        exact (List.dropWhile_sublist _).length_le
      have hlen2 : ((s.drop start).dropWhile
          (fun x => x != Vote_Tally_t.INSERTIONS_DELIM)).length < (s.drop start).length := by
        have h := List.takeWhile_append_dropWhile
          (fun x => x != Vote_Tally_t.INSERTIONS_DELIM) (s.drop start)
        have h2 := congrArg List.length h
        rw [List.length_append] at h2
        have h3 : 0 < ((s.drop start).takeWhile
            (fun x => x != Vote_Tally_t.INSERTIONS_DELIM)).length :=
          List.length_pos.mpr hfrag
        omega
      have hruns : Vote_Tally_t.runs (s.drop e) = Vote_Tally_t.runs (s.drop start) := by
        rw [hdrop, runs_dropWhile]
      have hsub : ∀ cnt, Vote_Tally_t.substr s start cnt = some ((s.drop start).take cnt) := by
        intro cnt
        unfold Vote_Tally_t.substr
        rw [if_neg (by omega)]
      obtain ⟨hg0, hg1⟩ := find_spec s start
      simp only [hne, ne_eq, not_false_eq_true, if_true, hsub]
      by_cases hd : (s.drop start).dropWhile
          (fun x => x != Vote_Tally_t.INSERTIONS_DELIM) = []
      · obtain ⟨he, htw⟩ := hg0 hd
        rw [he]
        have hcnt : (npos + 2 ^ 64 - start) % 2 ^ 64 = npos - start := by
          unfold npos at *; omega
        have hl : (s.drop start).length ≤ npos - start := by
          rw [List.length_drop]; omega
        rw [hcnt, List.take_of_length_le hl, ih npos _ (by
          rw [List.drop_eq_nil_of_le (by omega)]; simp; omega)]
        rw [hruns, hstep, htw, hd, List.drop_eq_nil_of_le (by omega : s.length ≤ npos)]
        simp
      · obtain ⟨m, he, hlt2, htk, hdr⟩ := hg1 hd
        rw [he]
        have hcnt : (start + m + 2 ^ 64 - start) % 2 ^ 64 = m := by
          unfold npos at *; omega
        rw [hcnt, htk, ih (start + m) _ (by rw [hdr]; omega)]
        rw [hruns, hstep, hdr]
        simp

/-! ## The insertion list: fragments and joining -/

theorem splitOn_delim_free (s : List Char) :
    ∀ f ∈ List.splitOn Vote_Tally_t.INSERTIONS_DELIM s, Vote_Tally_t.INSERTIONS_DELIM ∉ f := by
  induction s with
  | nil =>
    intro f hf
    rw [splitOn_delim_nil] at hf
    simp at hf
    simp [hf]
  | cons c cs ih =>
    intro f hf
    by_cases hc : c = Vote_Tally_t.INSERTIONS_DELIM
    · subst hc
      rw [splitOn_delim_cons_delim] at hf
      rcases List.mem_cons.mp hf with h | h
      · simp [h]
      · exact ih f h
    · rw [splitOn_delim_cons_other c cs hc] at hf
      cases hsp : List.splitOn Vote_Tally_t.INSERTIONS_DELIM cs with
      | nil => rw [hsp] at hf; simp at hf
      | cons g gs =>
        rw [hsp] at hf ih
        rw [List.modifyHead_cons] at hf
        rcases List.mem_cons.mp hf with h | h
        · subst h
          intro hmem
          rcases List.mem_cons.mp hmem with h1 | h1
          · exact hc h1.symm
          · exact ih g (List.mem_cons_self _ _) h1
        · exact ih f (List.mem_cons_of_mem _ h)

theorem runs_fragments (s : List Char) :
    ∀ f ∈ Vote_Tally_t.runs s, f ≠ [] ∧ Vote_Tally_t.INSERTIONS_DELIM ∉ f := by
  intro f hf
  unfold Vote_Tally_t.runs at hf
  rw [List.mem_filter] at hf
  refine ⟨?_, splitOn_delim_free s f hf.1⟩
  intro h
  rw [h] at hf
  simp at hf

theorem collapse_cons_other (c : Char) (cs : List Char)
    (hc : c ≠ Vote_Tally_t.INSERTIONS_DELIM) :
    Vote_Tally_t.collapse (c :: cs) = c :: Vote_Tally_t.collapse cs := by
  cases cs with
  | nil => rfl
  | cons d r => simp [Vote_Tally_t.collapse, hc]

theorem collapse_cons_delim (cs : List Char) :
    Vote_Tally_t.collapse (Vote_Tally_t.INSERTIONS_DELIM :: cs) =
      Vote_Tally_t.INSERTIONS_DELIM ::
        (Vote_Tally_t.collapse cs).dropWhile (fun x => x == Vote_Tally_t.INSERTIONS_DELIM) := by
  induction cs with
  | nil => rfl
  | cons d r ih =>
    by_cases hd : d = Vote_Tally_t.INSERTIONS_DELIM
    · subst hd
      have : Vote_Tally_t.collapse
          (Vote_Tally_t.INSERTIONS_DELIM :: Vote_Tally_t.INSERTIONS_DELIM :: r) =
          Vote_Tally_t.collapse (Vote_Tally_t.INSERTIONS_DELIM :: r) := by
        simp [Vote_Tally_t.collapse]
      rw [this, ih, List.dropWhile_cons_of_pos (by simp), List.dropWhile_idempotent]
    · have : Vote_Tally_t.collapse (Vote_Tally_t.INSERTIONS_DELIM :: d :: r) =
          Vote_Tally_t.INSERTIONS_DELIM :: Vote_Tally_t.collapse (d :: r) := by
        simp [Vote_Tally_t.collapse, hd]
      rw [this, collapse_cons_other d r hd, List.dropWhile_cons_of_neg (by simpa using hd)]

theorem rdropWhile_cons_other (c : Char) (t : List Char)
    (hc : c ≠ Vote_Tally_t.INSERTIONS_DELIM) :
    (c :: t).rdropWhile (fun x => x == Vote_Tally_t.INSERTIONS_DELIM) =
      c :: t.rdropWhile (fun x => x == Vote_Tally_t.INSERTIONS_DELIM) := by
  simp only [List.rdropWhile, List.reverse_cons, List.dropWhile_append]
  by_cases h : List.dropWhile (fun x => x == Vote_Tally_t.INSERTIONS_DELIM) t.reverse = []
  · have hc1 : (c == Vote_Tally_t.INSERTIONS_DELIM) = false := by simpa using hc
    simp [h, List.dropWhile, hc1]
  · simp [h]

theorem rdropWhile_cons_delim (t : List Char) :
    (Vote_Tally_t.INSERTIONS_DELIM :: t).rdropWhile
        (fun x => x == Vote_Tally_t.INSERTIONS_DELIM) =
      if t.rdropWhile (fun x => x == Vote_Tally_t.INSERTIONS_DELIM) = [] then []
      else Vote_Tally_t.INSERTIONS_DELIM ::
        t.rdropWhile (fun x => x == Vote_Tally_t.INSERTIONS_DELIM) := by
  simp only [List.rdropWhile, List.reverse_cons, List.dropWhile_append]
  by_cases h : List.dropWhile (fun x => x == Vote_Tally_t.INSERTIONS_DELIM) t.reverse = []
  · simp [h, List.dropWhile]
  · simp [h]

theorem intercalate_cons_cons (c : Char) (f : List Char) (rest : List (List Char)) :
    [Vote_Tally_t.INSERTIONS_DELIM].intercalate ((c :: f) :: rest) =
      c :: [Vote_Tally_t.INSERTIONS_DELIM].intercalate (f :: rest) := by
  cases rest <;> simp [List.intercalate, List.intersperse]

theorem intercalate_nil_cons (rest : List (List Char)) :
    [Vote_Tally_t.INSERTIONS_DELIM].intercalate ([] :: rest) =
      if rest = [] then []
      else Vote_Tally_t.INSERTIONS_DELIM :: [Vote_Tally_t.INSERTIONS_DELIM].intercalate rest := by
  cases rest <;> simp [List.intercalate, List.intersperse]

theorem intercalate_runs_eq_nil (s : List Char) :
    [Vote_Tally_t.INSERTIONS_DELIM].intercalate (Vote_Tally_t.runs s) = [] ↔
      Vote_Tally_t.runs s = [] := by
  constructor
  · intro h
    cases hr : Vote_Tally_t.runs s with
    | nil => rfl
    | cons g gs =>
      exfalso
      have hg : g ≠ [] := (runs_fragments s g (by rw [hr]; exact List.mem_cons_self _ _)).1
      obtain ⟨c, f, rfl⟩ := List.exists_cons_of_ne_nil hg
      rw [hr, intercalate_cons_cons] at h
      simp at h
  · intro h
    rw [h]
    rfl

/-- Joining the runs of a string with single delimiters gives the string with
its blocks of delimiters collapsed and its outer delimiters removed.  The second
component is the same statement for the pieces of the string when the first
piece is kept even if it is empty. -/
theorem intercalate_runs (s : List Char) :
    [Vote_Tally_t.INSERTIONS_DELIM].intercalate (Vote_Tally_t.runs s) =
      Vote_Tally_t.trim (Vote_Tally_t.collapse s) ∧
    ∀ f fs, List.splitOn Vote_Tally_t.INSERTIONS_DELIM s = f :: fs →
      [Vote_Tally_t.INSERTIONS_DELIM].intercalate (f :: fs.filter (fun f => !f.isEmpty)) =
        (Vote_Tally_t.collapse s).rdropWhile (fun x => x == Vote_Tally_t.INSERTIONS_DELIM) := by
  induction s with
  | nil =>
    refine ⟨by rw [runs_nil]; rfl, ?_⟩
    intro f fs h
    rw [splitOn_delim_nil] at h
    injection h with h1 h2
    subst h1 h2
    rfl
  | cons c cs ih =>
    obtain ⟨ihP, ihQ⟩ := ih
    by_cases hc : c = Vote_Tally_t.INSERTIONS_DELIM
    · subst hc
      have htrim : Vote_Tally_t.trim (Vote_Tally_t.collapse (Vote_Tally_t.INSERTIONS_DELIM :: cs)) =
          Vote_Tally_t.trim (Vote_Tally_t.collapse cs) := by
        rw [collapse_cons_delim]
        unfold Vote_Tally_t.trim
        rw [List.dropWhile_cons_of_pos (by simp), List.dropWhile_idempotent]
      refine ⟨by rw [runs_cons_delim, ihP, htrim], ?_⟩
      intro f fs h
      rw [splitOn_delim_cons_delim] at h
      injection h with h1 h2
      subst h1 h2
      have hfil : List.filter (fun f => !f.isEmpty)
          (List.splitOn Vote_Tally_t.INSERTIONS_DELIM cs) = Vote_Tally_t.runs cs := rfl
      rw [hfil, intercalate_nil_cons, collapse_cons_delim, rdropWhile_cons_delim]
      have htr : ((Vote_Tally_t.collapse cs).dropWhile
          (fun x => x == Vote_Tally_t.INSERTIONS_DELIM)).rdropWhile
          (fun x => x == Vote_Tally_t.INSERTIONS_DELIM) =
          [Vote_Tally_t.INSERTIONS_DELIM].intercalate (Vote_Tally_t.runs cs) := by
        rw [ihP]; rfl
      rw [htr]
      by_cases hr : Vote_Tally_t.runs cs = []
      · rw [if_pos hr, if_pos ((intercalate_runs_eq_nil cs).mpr hr)]
      · rw [if_neg hr, if_neg (fun h => hr ((intercalate_runs_eq_nil cs).mp h))]
    · cases hsp : List.splitOn Vote_Tally_t.INSERTIONS_DELIM cs with
      | nil => exact absurd hsp (splitOn_delim_ne_nil cs)
      | cons g gs =>
        have hQ := ihQ g gs hsp
        have hsplit : List.splitOn Vote_Tally_t.INSERTIONS_DELIM (c :: cs) = (c :: g) :: gs := by
          rw [splitOn_delim_cons_other c cs hc, hsp, List.modifyHead_cons]
        have hrhs : (Vote_Tally_t.collapse (c :: cs)).rdropWhile
            (fun x => x == Vote_Tally_t.INSERTIONS_DELIM) =
            c :: (Vote_Tally_t.collapse cs).rdropWhile
              (fun x => x == Vote_Tally_t.INSERTIONS_DELIM) := by
          rw [collapse_cons_other c cs hc, rdropWhile_cons_other c _ hc]
        constructor
        · have hruns : Vote_Tally_t.runs (c :: cs) =
              (c :: g) :: gs.filter (fun f => !f.isEmpty) := by
            unfold Vote_Tally_t.runs
            rw [hsplit]
            simp
          have htrim : Vote_Tally_t.trim (Vote_Tally_t.collapse (c :: cs)) =
              (Vote_Tally_t.collapse (c :: cs)).rdropWhile
                (fun x => x == Vote_Tally_t.INSERTIONS_DELIM) := by
            unfold Vote_Tally_t.trim
            rw [collapse_cons_other c cs hc, List.dropWhile_cons_of_neg (by simpa using hc)]
          rw [hruns, htrim, hrhs, intercalate_cons_cons, hQ]
        · intro f fs h
          rw [hsplit] at h
          injection h with h1 h2
          subst h1 h2
          rw [hrhs, intercalate_cons_cons, hQ]

/-! ## Properties of the insertion list -/

/-- C10: for every insertion string, `insertions_list()` returns the maximal
delimiter-free runs of the string, left to right; each returned fragment is
non-empty and contains no delimiter; and joining the fragments with single
delimiters gives the string with leading and trailing delimiters removed and
blocks of delimiters collapsed. -/
theorem Vote_Tally_t_insertions_list_runs (v : Vote_Tally_t) (h : v.WF) :
    v.insertions_list = some (Vote_Tally_t.runs v.insertions) ∧
    (∀ f ∈ Vote_Tally_t.runs v.insertions, f ≠ [] ∧ Vote_Tally_t.INSERTIONS_DELIM ∉ f) ∧
    [Vote_Tally_t.INSERTIONS_DELIM].intercalate (Vote_Tally_t.runs v.insertions) =
      Vote_Tally_t.trim (Vote_Tally_t.collapse v.insertions) := by
  refine ⟨?_, runs_fragments v.insertions, (intercalate_runs v.insertions).1⟩
  unfold Vote_Tally_t.insertions_list
  have hs : v.insertions.length < npos := h.2.2.2.2.2.2.2.2
  rw [insertions_list_loop_spec v.insertions hs _ 0 [] (by simp)]
  simp


theorem Vote_Tally_t_insertions_list_runs_witness :
    Vote_Tally_t.sampleDelims.WF ∧
    Vote_Tally_t.sampleDelims.insertions_list =
      some (Vote_Tally_t.runs Vote_Tally_t.sampleDelims.insertions) ∧
    Vote_Tally_t.runs Vote_Tally_t.sampleDelims.insertions = [['a', 'c'], ['g']] ∧
    Vote_Tally_t.trim (Vote_Tally_t.collapse Vote_Tally_t.sampleDelims.insertions) =
      ['a', 'c', '$', 'g'] :=
  ⟨by decide,
   (Vote_Tally_t_insertions_list_runs Vote_Tally_t.sampleDelims (by decide)).1,
   by decide, by decide⟩

/-- C3 as stated fails: with `s1` empty and `s2 = "a"` the insertion string is
`"$a"`, neither part contains the delimiter, and `insertions_list()` returns
`["a"]`, not `["", "a"]`. -/
theorem Vote_Tally_t_insertions_list_roundtrip_counterexample :
    (Vote_Tally_t.withInsertions ([] ++ Vote_Tally_t.INSERTIONS_DELIM :: ['a'])).WF ∧
    Vote_Tally_t.INSERTIONS_DELIM ∉ ([] : List Char) ∧
    Vote_Tally_t.INSERTIONS_DELIM ∉ ['a'] ∧
    (Vote_Tally_t.withInsertions ([] ++ Vote_Tally_t.INSERTIONS_DELIM :: ['a'])).insertions_list =
      some [['a']] ∧
    (Vote_Tally_t.withInsertions ([] ++ Vote_Tally_t.INSERTIONS_DELIM :: ['a'])).insertions_list ≠
      some [[], ['a']] ∧
    ¬ (∀ (v : Vote_Tally_t) (s1 s2 : List Char), v.WF →
        Vote_Tally_t.INSERTIONS_DELIM ∉ s1 → Vote_Tally_t.INSERTIONS_DELIM ∉ s2 →
        v.insertions = s1 ++ Vote_Tally_t.INSERTIONS_DELIM :: s2 →
        v.insertions_list = some [s1, s2]) := by
  refine ⟨by decide, by decide, by decide, by decide, by decide, ?_⟩
  intro hall
  have := hall (Vote_Tally_t.withInsertions ([] ++ Vote_Tally_t.INSERTIONS_DELIM :: ['a']))
    [] ['a'] (by decide) (by decide) (by decide) rfl
  revert this
  decide

/-- C3, amended: for all non-empty strings `s1` and `s2` without the delimiter, a
tally whose insertion string is `s1`, the delimiter, `s2` returns exactly
`[s1, s2]` from `insertions_list()`. -/
theorem Vote_Tally_t_insertions_list_roundtrip (v : Vote_Tally_t) (s1 s2 : List Char)
    (h : v.WF) (n1 : s1 ≠ []) (n2 : s2 ≠ [])
    (h1 : Vote_Tally_t.INSERTIONS_DELIM ∉ s1) (h2 : Vote_Tally_t.INSERTIONS_DELIM ∉ s2)
    (hv : v.insertions = s1 ++ Vote_Tally_t.INSERTIONS_DELIM :: s2) :
    v.insertions_list = some [s1, s2] := by
  have hs : v.insertions.length < npos := h.2.2.2.2.2.2.2.2
  unfold Vote_Tally_t.insertions_list
  rw [insertions_list_loop_spec v.insertions hs _ 0 [] (by simp), hv]
  have p1 : ∀ x ∈ s1, ¬ ((fun y => y == Vote_Tally_t.INSERTIONS_DELIM) x = true) := by
    intro x hx hxe
    have : x = Vote_Tally_t.INSERTIONS_DELIM := by simpa using hxe
    exact h1 (this ▸ hx)
  have p2 : ∀ x ∈ s2, ¬ ((fun y => y == Vote_Tally_t.INSERTIONS_DELIM) x = true) := by
    intro x hx hxe
    have : x = Vote_Tally_t.INSERTIONS_DELIM := by simpa using hxe
    exact h2 (this ▸ hx)
  have hsplit : List.splitOn Vote_Tally_t.INSERTIONS_DELIM
      (s1 ++ Vote_Tally_t.INSERTIONS_DELIM :: s2) = [s1, s2] := by
    unfold List.splitOn
    rw [List.splitOnP_first (fun y => y == Vote_Tally_t.INSERTIONS_DELIM) s1 p1
      Vote_Tally_t.INSERTIONS_DELIM (by simp) s2,
      List.splitOnP_eq_single (fun y => y == Vote_Tally_t.INSERTIONS_DELIM) s2 p2]
  simp [Vote_Tally_t.runs, hsplit, n1, n2]

theorem Vote_Tally_t_insertions_list_roundtrip_witness :
    (Vote_Tally_t.withInsertions ['a', 'c', '$', 'g']).WF ∧
    (Vote_Tally_t.withInsertions ['a', 'c', '$', 'g']).insertions_list =
      some [['a', 'c'], ['g']] :=
  ⟨by decide,
   Vote_Tally_t_insertions_list_roundtrip (Vote_Tally_t.withInsertions ['a', 'c', '$', 'g'])
     ['a', 'c'] ['g'] (by decide) (by decide) (by decide) (by decide) (by decide) rfl⟩

/-! ## Further properties of the tally sums -/

/-- C11: `total()` reads only the deletion counter and the four substitution
counters: two tallies that agree on these five have the same `total()`,
whatever their `confirmed`, `no_insert`, `insertion_cnt` and `insertions`; and
if they also agree on `insertion_cnt` they have the same `all()`. -/
theorem Vote_Tally_t_total_independent (v w : Vote_Tally_t)
    (hd : v.deletes = w.deletes) (ha : v.a_subst = w.a_subst) (hc : v.c_subst = w.c_subst)
    (hg : v.g_subst = w.g_subst) (ht : v.t_subst = w.t_subst) :
    v.total = w.total ∧ (v.insertion_cnt = w.insertion_cnt → v.all = w.all) := by
  have htot : v.total = w.total := by
    unfold Vote_Tally_t.total
    rw [hd, ha, hc, hg, ht]
  refine ⟨htot, ?_⟩
  intro hi
  unfold Vote_Tally_t.all Vote_Tally_t.ins_total
  rw [htot, hi]

theorem Vote_Tally_t_total_independent_witness :
    Vote_Tally_t.sample.total = Vote_Tally_t.sampleNoWrap.total ∧
    Vote_Tally_t.sample.total = Vote_Tally_t.sampleOther.total ∧
    Vote_Tally_t.sample.all = Vote_Tally_t.sampleOther.all :=
  ⟨(Vote_Tally_t_total_independent Vote_Tally_t.sample Vote_Tally_t.sampleNoWrap
      rfl rfl rfl rfl rfl).1,
   (Vote_Tally_t_total_independent Vote_Tally_t.sample Vote_Tally_t.sampleOther
      rfl rfl rfl rfl rfl).1,
   (Vote_Tally_t_total_independent Vote_Tally_t.sample Vote_Tally_t.sampleOther
      rfl rfl rfl rfl rfl).2 rfl⟩

/-- C12: for every tally the C++ type can hold, `total()` is at most
`5 * 65535 = 327675`, so it is the exact sum of its five counters; when
`insertion_cnt <= 2 ^ 32 - 1 - 327675`, `all()` is the exact sum
`total() + insertion_cnt` and every value returned by `all_but(bp)` is at most
`all()`. -/
theorem Vote_Tally_t_total_bound (v : Vote_Tally_t) (h : v.WF) :
    5 * 65535 = 327675 ∧
    v.total ≤ 327675 ∧
    v.total = v.deletes + v.a_subst + v.c_subst + v.g_subst + v.t_subst ∧
    (v.insertion_cnt ≤ 2 ^ 32 - 1 - 327675 →
      v.all = v.total + v.insertion_cnt ∧
      (∀ bp r, v.all_but bp = some r → r ≤ v.all) ∧
      (∀ bp s, v.subst bp = some s → v.all_but bp = some (v.all - s))) := by
  obtain ⟨_, h1, h2, h3, h4, h5, _, h7, _⟩ := h
  have ht : v.total = v.deletes + v.a_subst + v.c_subst + v.g_subst + v.t_subst := by
    unfold Vote_Tally_t.total
    apply Nat.mod_eq_of_lt
    omega
  refine ⟨by decide, by omega, ht, ?_⟩
  intro hi
  have hall : v.all = v.total + v.insertion_cnt := by
    unfold Vote_Tally_t.all Vote_Tally_t.ins_total
    apply Nat.mod_eq_of_lt
    omega
  have hsub : ∀ bp s, v.subst bp = some s → s ≤ v.total := by
    intro bp s hs
    unfold Vote_Tally_t.subst at hs
    rw [ht]
    split_ifs at hs <;> simp at hs <;> omega
  have hbut : ∀ bp s, v.subst bp = some s → v.all_but bp = some (v.all - s) := by
    intro bp s hs
    have hle := hsub bp s hs
    unfold Vote_Tally_t.all_but
    rw [hs]
    simp only [Option.some.injEq]
    omega
  refine ⟨hall, ?_, hbut⟩
  intro bp r hr
  cases hs : v.subst bp with
  | none =>
    unfold Vote_Tally_t.all_but at hr
    rw [hs] at hr
    simp at hr
  | some s =>
    rw [hbut bp s hs] at hr
    simp only [Option.some.injEq] at hr
    omega

theorem Vote_Tally_t_total_bound_witness :
    Vote_Tally_t.sampleNoWrap.WF ∧
    Vote_Tally_t.sampleNoWrap.total = 327675 ∧
    Vote_Tally_t.sampleNoWrap.all =
      Vote_Tally_t.sampleNoWrap.total + Vote_Tally_t.sampleNoWrap.insertion_cnt ∧
    Vote_Tally_t.sampleNoWrap.all_but 'g' = some (Vote_Tally_t.sampleNoWrap.all - 65535) :=
  ⟨by decide, by decide,
   ((Vote_Tally_t_total_bound Vote_Tally_t.sampleNoWrap (by decide)).2.2.2 (by decide)).1,
   ((Vote_Tally_t_total_bound Vote_Tally_t.sampleNoWrap (by decide)).2.2.2 (by decide)).2.2
     'g' 65535 (by decide)⟩

/-! ## Properties of tgPosition -/

/-- C14 as stated fails on a reverse position: after `set(20, 30)` on a reverse
position `bgn()` returns 30 and `end()` returns 20. -/
theorem tgPosition_set2_counterexample :
    tgPosition.sampleRev.isReverse = true ∧
    (tgPosition.sampleRev.set2 20 30).bgn = 30 ∧
    (tgPosition.sampleRev.set2 20 30).end_ = 20 ∧
    ¬ (∀ (p : tgPosition) (bgn end_ : Int),
        (p.set2 bgn end_).bgn = bgn ∧ (p.set2 bgn end_).end_ = end_ ∧
        (p.set2 bgn end_).isReverse = p.isReverse) := by
  refine ⟨by decide, by decide, by decide, ?_⟩
  intro hall
  have h := (hall tgPosition.sampleRev 20 30).1
  revert h
  decide

/-- C14, amended: the two-argument `set(bgn, end)` stores its arguments as the
minimum and maximum coordinate whatever the orientation: afterwards
`min() == bgn`, `max() == end` and `isReverse()` is unchanged; so on a forward
position `bgn() == bgn` and `end() == end`, and on a reverse position
`bgn() == end` and `end() == bgn`. -/
theorem tgPosition_set2_min_max (p : tgPosition) (bgn end_ : Int) :
    (p.set2 bgn end_).min = bgn ∧
    (p.set2 bgn end_).max = end_ ∧
    (p.set2 bgn end_).isReverse = p.isReverse ∧
    (p.set2 bgn end_).isForward = p.isForward ∧
    (p.isForward = true →
      (p.set2 bgn end_).bgn = bgn ∧ (p.set2 bgn end_).end_ = end_) ∧
    (p.isReverse = true →
      (p.set2 bgn end_).bgn = end_ ∧ (p.set2 bgn end_).end_ = bgn) := by
  have hset : p.set2 bgn end_ = { p with _min := bgn, _max := end_ } := by
    unfold tgPosition.set2
    split_ifs <;> rfl
  rw [hset]
  refine ⟨rfl, rfl, rfl, rfl, ?_, ?_⟩
  · intro hf
    simp only [tgPosition.isForward] at hf
    simp [tgPosition.bgn, tgPosition.end_, hf]
  · intro hr
    simp only [tgPosition.isReverse, beq_iff_eq] at hr
    simp [tgPosition.bgn, tgPosition.end_, hr]

theorem tgPosition_set2_min_max_witness :
    (tgPosition.sampleFwd.set2 20 30).bgn = 20 ∧ (tgPosition.sampleFwd.set2 20 30).end_ = 30 ∧
    (tgPosition.sampleRev.set2 20 30).bgn = 30 ∧ (tgPosition.sampleRev.set2 20 30).end_ = 20 :=
  ⟨((tgPosition_set2_min_max tgPosition.sampleFwd 20 30).2.2.2.2.1 (by decide)).1,
   ((tgPosition_set2_min_max tgPosition.sampleFwd 20 30).2.2.2.2.1 (by decide)).2,
   ((tgPosition_set2_min_max tgPosition.sampleRev 20 30).2.2.2.2.2 (by decide)).1,
   ((tgPosition_set2_min_max tgPosition.sampleRev 20 30).2.2.2.2.2 (by decide)).2⟩

/-- C15: the three-argument `set(anchor, ahang, bhang)` stores the anchor and
the hangs and nothing else: afterwards `anchor()`, `aHang()`, `bHang()` return
the arguments, and `min()`, `max()`, `bgn()`, `end()`, `isReverse()`,
`isForward()`, `ident()`, the type flags and the delta offset and length are
unchanged. -/
theorem tgPosition_set3_frame (p : tgPosition) (anchor : Nat) (ahang bhang : Int) :
    (p.set3 anchor ahang bhang).anchor = anchor ∧
    (p.set3 anchor ahang bhang).aHang = ahang ∧
    (p.set3 anchor ahang bhang).bHang = bhang ∧
    (p.set3 anchor ahang bhang).min = p.min ∧
    (p.set3 anchor ahang bhang).max = p.max ∧
    (p.set3 anchor ahang bhang).bgn = p.bgn ∧
    (p.set3 anchor ahang bhang).end_ = p.end_ ∧
    (p.set3 anchor ahang bhang).isReverse = p.isReverse ∧
    (p.set3 anchor ahang bhang).isForward = p.isForward ∧
    (p.set3 anchor ahang bhang).ident = p.ident ∧
    (p.set3 anchor ahang bhang).isRead = p.isRead ∧
    (p.set3 anchor ahang bhang).isUnitig = p.isUnitig ∧
    (p.set3 anchor ahang bhang).isContig = p.isContig ∧
    (p.set3 anchor ahang bhang).deltaOffset = p.deltaOffset ∧
    (p.set3 anchor ahang bhang).deltaLength = p.deltaLength ∧
    p.set3 anchor ahang bhang =
      { p with _anchor := anchor, _ahang := ahang, _bhang := bhang } := by
  exact ⟨rfl, rfl, rfl, rfl, rfl, rfl, rfl, rfl, rfl, rfl, rfl, rfl, rfl, rfl, rfl, rfl⟩

/-- C16: the five-argument `set(anchor, ahang, bhang, bgn, end)` normalises the
coordinates: afterwards `min()` is the smaller and `max()` the larger of `bgn`
and `end`, so `min() <= max()`; `isReverse()` holds exactly when `bgn >= end`
(in particular when `bgn == end`); and `bgn() == bgn`, `end() == end`. -/
theorem tgPosition_set5_normalises (p : tgPosition) (anchor : Nat)
    (ahang bhang bgn end_ : Int) :
    (p.set5 anchor ahang bhang bgn end_).min = min bgn end_ ∧
    (p.set5 anchor ahang bhang bgn end_).max = max bgn end_ ∧
    (p.set5 anchor ahang bhang bgn end_).min ≤ (p.set5 anchor ahang bhang bgn end_).max ∧
    ((p.set5 anchor ahang bhang bgn end_).isReverse = true ↔ bgn ≥ end_) ∧
    ((p.set5 anchor ahang bhang bgn end_).isForward = true ↔ bgn < end_) ∧
    (p.set5 anchor ahang bhang bgn bgn).isReverse = true ∧
    (p.set5 anchor ahang bhang bgn end_).bgn = bgn ∧
    (p.set5 anchor ahang bhang bgn end_).end_ = end_ ∧
    (p.set5 anchor ahang bhang bgn end_).anchor = anchor ∧
    (p.set5 anchor ahang bhang bgn end_).aHang = ahang ∧
    (p.set5 anchor ahang bhang bgn end_).bHang = bhang := by
  have hself : (p.set5 anchor ahang bhang bgn bgn).isReverse = true := by
    simp [tgPosition.set5, tgPosition.isReverse]
  by_cases h : bgn < end_
  · have hs : p.set5 anchor ahang bhang bgn end_ =
        { p with _anchor := anchor, _ahang := ahang, _bhang := bhang,
                 _min := bgn, _max := end_, _isReverse := false } := by
      simp [tgPosition.set5, h]
    rw [hs]
    refine ⟨?_, ?_, ?_, ?_, ?_, hself, ?_, ?_, rfl, rfl, rfl⟩ <;>
      simp [tgPosition.min, tgPosition.max, tgPosition.isReverse, tgPosition.isForward,
        tgPosition.bgn, tgPosition.end_] <;> omega
  · have hs : p.set5 anchor ahang bhang bgn end_ =
        { p with _anchor := anchor, _ahang := ahang, _bhang := bhang,
                 _min := end_, _max := bgn, _isReverse := true } := by
      simp [tgPosition.set5, h]
    rw [hs]
    refine ⟨?_, ?_, ?_, ?_, ?_, hself, ?_, ?_, rfl, rfl, rfl⟩ <;>
      simp [tgPosition.min, tgPosition.max, tgPosition.isReverse, tgPosition.isForward,
        tgPosition.bgn, tgPosition.end_] <;> omega

/-- C17: `operator<` on positions orders by increasing `min()` and, for equal
`min()`, by decreasing `max()`; it is irreflexive, asymmetric and transitive,
and two positions are unordered both ways exactly when they have the same
`min()` and the same `max()`. -/
theorem tgPosition_lt_strict_weak :
    (∀ x y : tgPosition, x.lt y = true ↔
      (x.min < y.min ∨ (x.min = y.min ∧ x.max > y.max))) ∧
    (∀ x : tgPosition, x.lt x = false) ∧
    (∀ x y : tgPosition, x.lt y = true → y.lt x = false) ∧
    (∀ x y z : tgPosition, x.lt y = true → y.lt z = true → x.lt z = true) ∧
    (∀ x y : tgPosition, (x.lt y = false ∧ y.lt x = false) ↔
      (x.min = y.min ∧ x.max = y.max)) := by
  have key : ∀ x y : tgPosition, x.lt y = true ↔
      (x.min < y.min ∨ (x.min = y.min ∧ x.max > y.max)) := by
    intro x y
    unfold tgPosition.lt
    by_cases h : x.min = y.min
    · simp [h]
    · simp [h]
  have hf : ∀ x y : tgPosition, x.lt y = false ↔ ¬ (x.lt y = true) := by
    intro x y; cases x.lt y <;> simp
  refine ⟨key, ?_, ?_, ?_, ?_⟩
  · intro x
    rw [hf, key]
    omega
  · intro x y hxy
    rw [hf, key]
    rw [key] at hxy
    omega
  · intro x y z hxy hyz
    rw [key] at hxy hyz ⊢
    omega
  · intro x y
    rw [hf, hf, key, key]
    omega

theorem tgPosition_lt_strict_weak_witness :
    (tgPosition.sampleFwd.set2 10 50).lt (tgPosition.sampleRev.set2 10 40) = true ∧
    (tgPosition.sampleRev.set2 10 40).lt (tgPosition.sampleFwd.set2 10 50) = false :=
  ⟨(tgPosition_lt_strict_weak.1 _ _).2 (by decide),
   tgPosition_lt_strict_weak.2.2.1 _ _ (by decide)⟩

/-! ## Properties of tgTig -/

/-- C18 as stated fails when the child count is `UINT32_MAX`: `addChild`
succeeds, the count wraps round to 0 instead of growing by one, and
`getChild` of the slot just added fails. -/
theorem tgTig_addChild_counterexample :
    tgTig.sampleFull.WF ∧
    tgTig.sampleFull.numberOfChildren = 4294967295 ∧
    tgTig.sampleFull.addChild 4294967295 = .ok tgTig.sampleWrapped 4294967295 ∧
    tgTig.sampleWrapped.numberOfChildren = 0 ∧
    tgTig.sampleWrapped.numberOfChildren ≠ tgTig.sampleFull.numberOfChildren + 1 ∧
    tgTig.sampleWrapped.getChild 4294967295 = .abort tgTig.sampleWrapped ∧
    ¬ (∀ (t t1 : tgTig) (c s : Nat), t.WF → t.addChild c = .ok t1 s →
        t1.numberOfChildren = t.numberOfChildren + 1) := by
  refine ⟨by decide, by decide, by decide, by decide, by decide, by decide, ?_⟩
  intro hall
  have h := hall tgTig.sampleFull tgTig.sampleWrapped 4294967295 4294967295
    (by decide) (by decide)
  revert h
  decide

/-- C18, amended: `getChild(c)` succeeds exactly when `c < numberOfChildren()`
and leaves the tig as it is; `addChild(c)` succeeds exactly when
`c == numberOfChildren()`; a failed assertion leaves the tig, and so the child
count, as it is; and when `numberOfChildren() < UINT32_MAX`, a successful
`addChild(c)` returns slot `c`, makes the count grow by exactly one, makes
`getChild(c)` succeed with the same slot, and keeps every index that was valid
valid with the same slot. -/
theorem tgTig_child_access (t : tgTig) (c : Nat) :
    (t.getChild c = .ok t c ↔ c < t.numberOfChildren) ∧
    (t.getChild c = .abort t ↔ ¬ c < t.numberOfChildren) ∧
    ((∃ t1 s, t.addChild c = .ok t1 s) ↔ c = t.numberOfChildren) ∧
    (t.addChild c = .abort t ↔ c ≠ t.numberOfChildren) ∧
    (t.numberOfChildren < UINT32_MAX → ∀ t1 s, t.addChild c = .ok t1 s →
      s = c ∧
      t1.numberOfChildren = t.numberOfChildren + 1 ∧
      t1.getChild c = .ok t1 s ∧
      t1._children = t._children ∧
      ∀ i, t.getChild i = .ok t i → t1.getChild i = .ok t1 i) := by
  refine ⟨?_, ?_, ?_, ?_, ?_⟩
  · unfold tgTig.getChild tgTig.numberOfChildren
    split_ifs with h <;> simp [h]
  · unfold tgTig.getChild tgTig.numberOfChildren
    split_ifs with h <;> simp [h]
  · unfold tgTig.addChild tgTig.numberOfChildren
    split_ifs with h <;> simp [h]
  · unfold tgTig.addChild tgTig.numberOfChildren
    split_ifs with h <;> simp [h]
  · intro hlt t1 s hadd
    unfold tgTig.addChild at hadd
    unfold tgTig.numberOfChildren UINT32_MAX at hlt
    have hmod : (t._childrenLen + 1) % 2 ^ 32 = t._childrenLen + 1 := by
      apply Nat.mod_eq_of_lt
      omega
    by_cases h : c = t._childrenLen
    · rw [if_pos h, hmod] at hadd
      injection hadd with ht1 hs
      subst ht1 hs
      refine ⟨rfl, rfl, ?_, rfl, ?_⟩
      · unfold tgTig.getChild
        rw [if_pos (by show c < t._childrenLen + 1; omega)]
      · intro i hi
        have hi2 : i < t._childrenLen := by
          unfold tgTig.getChild at hi
          by_cases hi3 : i < t._childrenLen
          · exact hi3
          · rw [if_neg hi3] at hi
            injection hi
        unfold tgTig.getChild
        rw [if_pos (by show i < t._childrenLen + 1; omega)]
    · rw [if_neg h] at hadd
      injection hadd

theorem tgTig_child_access_witness :
    tgTig.sample.numberOfChildren < UINT32_MAX ∧
    tgTig.sample.addChild 3 = .ok tgTig.sampleGrown 3 ∧
    tgTig.sampleGrown.numberOfChildren = tgTig.sample.numberOfChildren + 1 ∧
    tgTig.sampleGrown.getChild 3 = .ok tgTig.sampleGrown 3 ∧
    tgTig.sampleGrown.getChild 1 = .ok tgTig.sampleGrown 1 :=
  ⟨by decide, by decide,
   ((tgTig_child_access tgTig.sample 3).2.2.2.2 (by decide) tgTig.sampleGrown 3
     (by decide)).2.1,
   ((tgTig_child_access tgTig.sample 3).2.2.2.2 (by decide) tgTig.sampleGrown 3
     (by decide)).2.2.1,
   ((tgTig_child_access tgTig.sample 3).2.2.2.2 (by decide) tgTig.sampleGrown 3
     (by decide)).2.2.2.2 1 (by decide)⟩

/-! ## Properties of pedWorkArea_t -/

/-- C13 as stated fails for a large error rate: with `AS_MAX_READLEN = 2097151`
and the non-negative error rate 2048 the product 4294965248 is exact, the
`uint32` sum 4294965249 is negative as an `int32`, and `initialize` does not
return; and for every positive `AS_MAX_READLEN` the error rate `2 ^ 32` gives a
product that is not a `uint32`. -/
theorem pedWorkArea_t_initialize_counterexample :
    (0 : ℚ) ≤ 2048 ∧
    double_to_uint32 ((2048 : ℚ) * (2097151 : Nat)) = some 4294965248 ∧
    uint32_to_int32 ((1 + 4294965248) % 2 ^ 32) = -2047 ∧
    pedWorkArea_t.initialize_ (fun a b => a * b) 2097151 (pedWorkArea_t.ctor 2097151) none 2048 =
      none ∧
    (∀ N : Nat, 0 < N →
      pedWorkArea_t.initialize_ (fun a b => a * b) N (pedWorkArea_t.ctor N) none (2 ^ 32) =
        none) ∧
    ¬ (∀ (N : Nat) (G_ : Option Nat) (errorRate : ℚ), 0 ≤ errorRate →
        ∃ w, pedWorkArea_t.initialize_ (fun a b => a * b) N (pedWorkArea_t.ctor N) G_ errorRate =
            some w ∧
          w.Edit_Array_Max = 1 + ⌊errorRate * (N : ℚ)⌋) := by
  have h1 : double_to_uint32 ((2048 : ℚ) * (2097151 : Nat)) = some 4294965248 := by
    unfold double_to_uint32
    have : ((2048 : ℚ) * (2097151 : Nat)) = ((4294965248 : ℤ) : ℚ) := by norm_num
    rw [this, Int.floor_intCast]
    norm_num
    rfl
  have h2 : uint32_to_int32 ((1 + 4294965248) % 2 ^ 32) = -2047 := by
    unfold uint32_to_int32
    norm_num
  have h3 : pedWorkArea_t.initialize_ (fun a b => a * b) 2097151 (pedWorkArea_t.ctor 2097151)
      none 2048 = none := by
    unfold pedWorkArea_t.initialize_
    simp only [h1, h2]
    rfl
  have h4 : ∀ N : Nat, 0 < N →
      pedWorkArea_t.initialize_ (fun a b => a * b) N (pedWorkArea_t.ctor N) none (2 ^ 32) =
        none := by
    intro N hN
    have hN1 : (1 : ℚ) ≤ (N : ℚ) := by exact_mod_cast hN
    have hbig : ¬ (-1 < (2 ^ 32 : ℚ) * (N : ℚ) ∧ (2 ^ 32 : ℚ) * (N : ℚ) < 2 ^ 32) := by
      intro h
      nlinarith [h.2]
    unfold pedWorkArea_t.initialize_ double_to_uint32
    simp only [if_neg hbig]
  refine ⟨by norm_num, h1, h2, h3, h4, ?_⟩
  intro hall
  obtain ⟨w, hw, _⟩ := hall 2097151 none 2048 (by norm_num)
  rw [h3] at hw
  exact Option.noConfusion hw

/-- The steps of `initialize` when the product is non-negative and below
`2 ^ 31 - 1`: the conversions do not overflow and the row array is allocated. -/
theorem initialize_in_range (fmul : ℚ → ℚ → ℚ) (N : Nat) (w0 : pedWorkArea_t)
    (G_ : Option Nat) (errorRate : ℚ)
    (h0 : 0 ≤ fmul errorRate (N : ℚ)) (hr : fmul errorRate (N : ℚ) < 2 ^ 31 - 1) :
    pedWorkArea_t.initialize_ fmul N w0 G_ errorRate =
      some { w0 with G := G_, Edit_Array_Max := 1 + ⌊fmul errorRate (N : ℚ)⌋,
                     Edit_Array_Lazy :=
                       some (List.replicate (1 + ⌊fmul errorRate (N : ℚ)⌋).toNat none) } := by
  unfold pedWorkArea_t.initialize_
  generalize fmul errorRate (N : ℚ) = p at h0 hr ⊢
  have hf0 : 0 ≤ ⌊p⌋ := Int.floor_nonneg.mpr h0
  have hf1 : ⌊p⌋ < 2 ^ 31 - 1 := by
    rw [Int.floor_lt]
    norm_num
    linarith
  have hconv : double_to_uint32 p = some ⌊p⌋.toNat := by
    unfold double_to_uint32
    rw [if_pos]
    constructor
    · linarith
    · linarith
  have hmax : uint32_to_int32 ((1 + ⌊p⌋.toNat) % 2 ^ 32) = 1 + ⌊p⌋ := by
    unfold uint32_to_int32
    have hmod : (1 + ⌊p⌋.toNat) % 2 ^ 32 = 1 + ⌊p⌋.toNat := by
      apply Nat.mod_eq_of_lt
      omega
    rw [hmod, if_pos (by omega)]
    omega
  simp only [hconv, hmax]
  rw [if_neg (by omega)]

/-- C13, amended: after `initialize(G, errorRate)` on a freshly constructed work
area, for a non-negative error rate whose product with `AS_MAX_READLEN` is below
`2 ^ 31 - 1`, `Edit_Array_Max` is `1 + floor(errorRate * AS_MAX_READLEN)`, which
is at least one; the row array has that many slots and every slot is `NULL`; no
block is recorded in `alloc`; and `deltaLen` is 0.  The product is the one the
`double` multiplication returns, whatever its rounding, as long as it gives a
non-negative product for non-negative factors. -/
theorem pedWorkArea_t_initialize_fresh (fmul : ℚ → ℚ → ℚ) (N : Nat)
    (G_ : Option Nat) (errorRate : ℚ)
    (he : 0 ≤ errorRate)
    (hm : ∀ a b : ℚ, 0 ≤ a → 0 ≤ b → 0 ≤ fmul a b)
    (hr : fmul errorRate (N : ℚ) < 2 ^ 31 - 1) :
    ∃ w rows,
      pedWorkArea_t.initialize_ fmul N (pedWorkArea_t.ctor N) G_ errorRate = some w ∧
      w.Edit_Array_Max = 1 + ⌊fmul errorRate (N : ℚ)⌋ ∧
      1 ≤ w.Edit_Array_Max ∧
      w.Edit_Array_Lazy = some rows ∧
      (rows.length : Int) = w.Edit_Array_Max ∧
      (∀ e, e < rows.length → rows[e]? = some none) ∧
      w.alloc = [] ∧
      w.deltaLen = 0 ∧
      w.G = G_ := by
  have h0 : 0 ≤ fmul errorRate (N : ℚ) := hm errorRate N he (Nat.cast_nonneg N)
  have hf0 : 0 ≤ ⌊fmul errorRate (N : ℚ)⌋ := Int.floor_nonneg.mpr h0
  refine ⟨_, _, initialize_in_range fmul N (pedWorkArea_t.ctor N) G_ errorRate h0 hr,
    rfl, ?_, rfl, ?_, ?_, rfl, rfl, rfl⟩
  · show 1 ≤ 1 + ⌊fmul errorRate (N : ℚ)⌋
    omega
  · show ((List.replicate (1 + ⌊fmul errorRate (N : ℚ)⌋).toNat (none : Option Nat)).length : Int) =
      1 + ⌊fmul errorRate (N : ℚ)⌋
    rw [List.length_replicate]
    omega
  · intro e hlt
    rw [List.length_replicate] at hlt
    rw [List.getElem?_replicate, if_pos hlt]

theorem pedWorkArea_t_initialize_fresh_witness :
    (0 : ℚ) ≤ 6 / 100 ∧
    ∃ w rows,
      pedWorkArea_t.initialize_ (fun a b => a * b) 50 (pedWorkArea_t.ctor 50) none (6 / 100) =
        some w ∧
      w.Edit_Array_Max = 1 + ⌊(fun a b : ℚ => a * b) (6 / 100) ((50 : Nat) : ℚ)⌋ ∧
      1 ≤ w.Edit_Array_Max ∧
      w.Edit_Array_Lazy = some rows ∧
      (rows.length : Int) = w.Edit_Array_Max ∧
      (∀ e, e < rows.length → rows[e]? = some none) ∧
      w.alloc = [] ∧
      w.deltaLen = 0 ∧
      w.G = none :=
  ⟨by norm_num,
   pedWorkArea_t_initialize_fresh (fun a b => a * b) 50 none (6 / 100) (by norm_num)
     (fun _ _ ha hb => mul_nonneg ha hb) (by norm_num)⟩

end Canu
